import Mathlib

/-!
Shallow embedding of the transcription pipeline in `audio_processor.py`
(pizzazz repository).  Python floats are modelled by `ℚ` wherever the code
only rounds, compares and does field arithmetic, and by `ℝ` where a
logarithm is involved (the Hz→MIDI conversion).  MIDI note numbers, once
rounded, are `ℤ`.
-/

namespace Pizzazz

/-- Python's built-in `round` (also numpy's), which rounds halves to the
nearest even integer, on rationals. -/
def pyRound (q : ℚ) : ℤ :=
  let f : ℤ := ⌊q⌋
  if q - f < 1/2 then f
  else if q - f > 1/2 then f + 1
  else if f % 2 = 0 then f else f + 1

/-- Python `min(iterable, key=...)` over a nonempty list given as head and
tail:
the first element attaining the least key wins, as in Python. -/
def minByKey {α : Type} (key : α → ℚ) (x : α) (xs : List α) : α :=
  xs.foldl (fun b a => if key a < key b then a else b) x

/-- The staff a note is routed to. -/
inductive Clef : Type
  | treble : Clef
  | bass : Clef
deriving DecidableEq

/-- Function `split_notes_by_clef` (audio_processor.py lines 16-31): hand
separation
with MIDDLE_C = 60 and TRANSITION_RANGE = 7. -/
def split_notes_by_clef (midi_note : ℚ) (magnitude : ℚ) : Clef × ℚ × ℚ :=
  if midi_note ≥ 60 + 7 then (Clef.treble, midi_note, magnitude)
  else if midi_note < 60 - 7 then (Clef.bass, midi_note, magnitude)
  else if magnitude > 2/5 then (Clef.treble, midi_note, magnitude)
  else (Clef.bass, midi_note, magnitude)

/-- The table `std_lengths` of `quantize_duration` (lines 70-71), in units
of quarter notes. -/
def std_lengths : List ℚ := [4, 2, 3/2, 1, 3/4, 1/2, 1/4, 1/8]

/-- Function `quantize_duration` (lines 65-78): snap a duration to the nearest
standard note length, in multiples of `base_note_length`.  Python's `min`
over the (concrete, nonempty) table keeps the first element on ties. -/
def quantize_duration (duration : ℚ) (base_note_length : ℚ) : ℚ :=
  let duration_in_quarters := duration / base_note_length
  (match std_lengths with
   | [] => 0
   | x :: xs => minByKey (fun v => |v - duration_in_quarters|) x xs)
    * base_note_length

/-- The `piano_notes` table of `adjust_pitch` (lines 154-156): the white
keys from A0 (21) to C7 (96), plus C8 (108). -/
def piano_notes : List ℤ :=
  [21, 23, 24, 26, 28, 29, 31, 33, 35, 36, 38, 40, 41, 43, 45,
   47, 48, 50, 52, 53, 55, 57, 59, 60, 62, 64, 65, 67, 69, 71,
   72, 74, 76, 77, 79, 81, 83, 84, 86, 88, 89, 91, 93, 95, 96, 108]

/-- Function `adjust_pitch` (lines 135-157): pitch correction with an
octave-boundary nudge inside the 40-cent tolerance, and snapping to
`piano_notes` outside it. -/
def adjust_pitch (midi_note : ℚ) : ℤ :=
  let semitone : ℤ := pyRound midi_note
  let cents_diff : ℚ := (midi_note - semitone) * 100
  if |cents_diff| < 40 then
    let note_in_octave := semitone % 12
    if note_in_octave = 11 ∧ cents_diff > 20 then semitone + 1
    else if note_in_octave = 0 ∧ cents_diff < -20 then semitone - 1
    else semitone
  else
    match piano_notes with
    | [] => 0
    | x :: xs => minByKey (fun n => |(n : ℚ) - midi_note|) x xs

/-! ### Note-candidate extraction (`find_simultaneous_notes`, lines 33-63)

A frame is one column of the pitch/salience matrix, modelled as the list of
its (pitch-Hz, magnitude) pairs over the frequency bins. -/

/-- Expression `frame_magnitudes.max()` (line 38), for a nonempty frame;
numpy raises
on an empty array, for which we return 0 (no claim touches empty frames). -/
def maxMagnitude (frame : List (ℚ × ℚ)) : ℚ :=
  match frame with
  | [] => 0
  | x :: xs => xs.foldl (fun acc y => max acc y.2) x.2

/-- Line 42, `normalized_magnitudes = frame_magnitudes / max_magnitude`. -/
def normalizedMags (frame : List (ℚ × ℚ)) : List ℚ :=
  frame.map (fun x => x.2 / maxMagnitude frame)

/-- The neighbour test of lines 50-55: bin `i` is a peak unless an
immediate neighbour exceeds its magnitude by more than the factor 1.2. -/
def isPeakAt (norm : List ℚ) (i : ℕ) : Bool :=
  let mag := norm.getD i 0
  (!(decide (0 < i) && decide (norm.getD (i - 1) 0 > mag * (6/5)))) &&
  (!(decide (i + 1 < norm.length) && decide (norm.getD (i + 1) 0 > mag * (6/5))))

/-- The scan of lines 44-61 up to (but not including) the Hz→MIDI
conversion: fold over bin indices keeping `(strongest_peak, strongest_mag)`,
where the retained peak is recorded as its (frequency, normalized
magnitude) pair.  The strict `mag > strongest_mag` comparison means the
first bin attaining the maximum wins, as in the Python loop. -/
def selectPeak (frame : List (ℚ × ℚ)) (threshold : ℚ) : Option (ℚ × ℚ) :=
  let norm := normalizedMags frame
  let pits := frame.map Prod.fst
  ((List.range frame.length).foldl
    (fun s i =>
      let mag := norm.getD i 0
      if mag > threshold ∧ pits.getD i 0 > 0 ∧ isPeakAt norm i = true ∧ mag > s.2
      then (some (pits.getD i 0, mag), mag)
      else s)
    ((none : Option (ℚ × ℚ)), (0 : ℚ))).1

/-- Conversion `librosa.hz_to_midi` (line 58): `69 + 12*log2(f/440)`. -/
noncomputable def hzToMidi (f : ℚ) : ℝ :=
  69 + 12 * Real.logb 2 ((f : ℝ) / 440)

/-- Function `find_simultaneous_notes` (lines 33-63).  The selected peak's
frequency
is converted to MIDI and rounded (line 59).  Python's `round` is
half-to-even, Mathlib's `round` is half-up; they agree here because
`hzToMidi f` is an exact half-integer for no rational `f`. -/
noncomputable def find_simultaneous_notes (frame : List (ℚ × ℚ))
    (threshold : ℚ) : List (ℤ × ℚ) :=
  if maxMagnitude frame = 0 then []
  else
    match selectPeak frame threshold with
    | none => []
    | some fm => [(round (hzToMidi fm.1), fm.2)]

/-! ### The per-onset note loop (lines 195-209) -/

/-- The guard `if prev_midi and abs(midi_note - prev_midi) < 2` (line 198),
including Python's truthiness: a stored `prev_midi` of `0` is falsy, so the
gap test is skipped for it. -/
def shouldDiscard (prev : Option ℤ) (m : ℤ) : Bool :=
  match prev with
  | none => false
  | some p => decide (p ≠ 0) && decide (|m - p| < 2)

/-- The accepted candidates of the scan of lines 195-209: element `m` is
dropped when the gap guard fires, otherwise accepted and recorded as the
new comparison point. -/
def dedupScan : Option ℤ → List ℤ → List ℤ
  | _, [] => []
  | prev, m :: ms =>
    if shouldDiscard prev m then dedupScan prev ms
    else m :: dedupScan (some m) ms

/-- The full loop body of lines 195-209: accepted candidates are rounded
(`int(round(midi_note))`, line 202) and appended, with quarter length `ql`,
to the treble part when `adjusted_note >= 60` and to the bass part
otherwise; `prev_midi` is updated to the adjusted note. -/
def emitLoop (ql : ℚ) : Option ℤ → List ℤ → List (ℤ × ℚ) × List (ℤ × ℚ)
  | _, [] => ([], [])
  | prev, m :: ms =>
    if shouldDiscard prev m then emitLoop ql prev ms
    else
      let adjusted_note : ℤ := pyRound ((m : ℚ))
      let rest := emitLoop ql (some adjusted_note) ms
      if 60 ≤ adjusted_note then ((adjusted_note, ql) :: rest.1, rest.2)
      else (rest.1, (adjusted_note, ql) :: rest.2)

/-- One onset's processing (lines 194-209): `for midi_note in
sorted(notes_set)` with the gap guard, starting from `prev_midi = None`. -/
def processOnsetNotes (s : Finset ℤ) (ql : ℚ) :
    List (ℤ × ℚ) × List (ℤ × ℚ) :=
  emitLoop ql none (s.sort (· ≤ ·))

/-- Modelled from the spec: the full 88-key piano set of canonical MIDI
numbers, 21 through 108 inclusive (the code's `piano_notes` table is the
object compared against this). -/
def full88 : List ℤ := (List.range 88).map (fun i => 21 + (i : ℤ))

/-- Modelled from the spec: the member of the full 88-key set nearest to a
fractional MIDI pitch (first wins on ties, matching Python `min`). -/
def nearest88 (midi_note : ℚ) : ℤ :=
  minByKey (fun n => |(n : ℚ) - midi_note|) 21
    ((List.range 87).map (fun i => 22 + (i : ℤ)))

/-! ### Helper lemmas -/

/-- Rounding an exact integer returns that integer. -/
theorem pyRound_intCast (n : ℤ) : pyRound ((n : ℚ)) = n := by
  unfold pyRound
  simp

theorem minByKey_cons {α : Type} (key : α → ℚ) (x a : α) (xs : List α) :
    minByKey key x (a :: xs) =
      minByKey key (if key a < key x then a else x) xs := rfl

/-- Python `min` returns an element of the iterable. -/
theorem minByKey_mem {α : Type} (key : α → ℚ) (x : α) (xs : List α) :
    minByKey key x xs ∈ x :: xs := by
  induction xs generalizing x with
  | nil => simp [minByKey]
  | cons a xs ih =>
    rw [minByKey_cons]
    rcases List.mem_cons.1 (ih (if key a < key x then a else x)) with h | h
    · rw [h]
      split
      · simp
      · simp
    · simp [h]

/-- Python `min` attains the least key among the elements. -/
theorem minByKey_le {α : Type} (key : α → ℚ) (x : α) (xs : List α) :
    ∀ y ∈ x :: xs, key (minByKey key x xs) ≤ key y := by
  induction xs generalizing x with
  | nil =>
    intro y hy
    simp only [List.mem_singleton] at hy
    simp [minByKey, hy]
  | cons a xs ih =>
    intro y hy
    rw [minByKey_cons]
    rcases List.mem_cons.1 hy with h | h
    · subst h
      by_cases c : key a < key y
      · simp only [if_pos c]
        exact le_trans (ih a a (by simp)) (le_of_lt c)
      · simp only [if_neg c]
        exact ih y y (by simp)
    · rcases List.mem_cons.1 h with h' | h'
      · subst h'
        by_cases c : key y < key x
        · simp only [if_pos c]
          exact ih y y (by simp)
        · simp only [if_neg c]
          exact le_trans (ih x x (by simp)) (not_lt.1 c)
      · split
        · exact ih a y (List.mem_cons_of_mem _ h')
        · exact ih x y (List.mem_cons_of_mem _ h')

/-- The quantized duration, in beat units, is always a table entry. -/
theorem quantize_mem (d b : ℚ) (hb : b ≠ 0) :
    quantize_duration d b / b ∈ std_lengths := by
  unfold quantize_duration
  rw [mul_div_assoc, div_self hb, mul_one]
  exact minByKey_mem _ _ _

/-- Every table entry is at least an eighth of a quarter note. -/
theorem std_lengths_ge (x : ℚ) (hx : x ∈ std_lengths) : 1/8 ≤ x := by
  simp only [std_lengths, List.mem_cons, List.not_mem_nil, or_false] at hx
  rcases hx with h | h | h | h | h | h | h | h <;> rw [h] <;> norm_num

/-- The emitted treble and bass notes are exactly the accepted candidates
of the gap scan, split at MIDI 60, each carried through unchanged. -/
theorem emitLoop_eq_filter (ql : ℚ) (l : List ℤ) : ∀ prev : Option ℤ,
    emitLoop ql prev l =
      (((dedupScan prev l).filter (fun m => decide (60 ≤ m))).map
          (fun m => (m, ql)),
       ((dedupScan prev l).filter (fun m => decide (m < 60))).map
          (fun m => (m, ql))) := by
  induction l with
  | nil => intro prev; rfl
  | cons m ms ih =>
    intro prev
    simp only [emitLoop, dedupScan]
    by_cases h : shouldDiscard prev m
    · simp only [if_pos h]
      exact ih prev
    · simp only [if_neg h, pyRound_intCast]
      rw [ih (some m)]
      by_cases h60 : (60 : ℤ) ≤ m
      · simp [List.filter_cons, h60, not_lt.2 h60]
      · simp [List.filter_cons, h60, not_le.1 h60]

/-! ### Claim theorems -/

/-- C1 (counterexample): the claim says MIDI 67 with salience 0.3 is routed
to the bass staff; `split_notes_by_clef` routes it to the treble staff,
because the `midi_note >= 67` branch fires before salience is consulted. -/
theorem C1_cx_split_67_low_salience_is_treble :
    (split_notes_by_clef 67 (3/10)).1 = Clef.treble
    ∧ Clef.treble ≠ Clef.bass := by
  refine ⟨?_, by simp⟩
  norm_num [split_notes_by_clef]

/-- C1 (amended): a pitch of MIDI 67 is routed to the treble staff for
every salience value (the treble branch takes all pitches ≥ 60 + 7 = 67
unconditionally, so both salience 0.5 and salience 0.3 give treble), and a
pitch of MIDI 72 is routed to the treble staff for every salience value. -/
theorem C1_clef_boundary (magnitude : ℚ) :
    split_notes_by_clef 67 magnitude = (Clef.treble, 67, magnitude)
    ∧ split_notes_by_clef 72 magnitude = (Clef.treble, 72, magnitude) := by
  constructor <;> norm_num [split_notes_by_clef]

/-- C3: for all durations `d > 0` and beat lengths `b > 0`,
`quantize_duration d b / b` is a member of the fixed table
{4, 2, 1.5, 1, 0.75, 0.5, 0.25, 0.125} of quarter-note lengths. -/
theorem C3_quantize_closure (d b : ℚ) (hd : 0 < d) (hb : 0 < b) :
    quantize_duration d b / b ∈ std_lengths :=
  quantize_mem d b (ne_of_gt hb)

theorem C3_quantize_closure_witness :
    0 < (1 : ℚ) ∧ 0 < (1/4 : ℚ)
    ∧ quantize_duration 1 (1/4) / (1/4) ∈ std_lengths :=
  ⟨by norm_num, by norm_num,
    C3_quantize_closure 1 (1/4) (by norm_num) (by norm_num)⟩

/-- C5: per onset the collected distinct candidates are scanned in
ascending order starting from no previous note; the first candidate is
always accepted, and when the immediately preceding accepted candidate is
`p` (a positive MIDI number, as all candidates in the piptrack range are),
the next candidate `m` is discarded exactly when `|m - p| < 2`, i.e. when
it lies within 2 semitones of the accepted — not merely scanned —
predecessor. -/
theorem C5_dedup_gap_rule (p m : ℤ) (ms : List ℤ) (hp : 0 < p) :
    dedupScan (some p) (m :: ms) =
      (if |m - p| < 2 then dedupScan (some p) ms
       else m :: dedupScan (some m) ms)
    ∧ dedupScan none (m :: ms) = m :: dedupScan (some m) ms := by
  constructor
  · have hne : p ≠ 0 := ne_of_gt hp
    simp [dedupScan, shouldDiscard, hne]
  · simp [dedupScan, shouldDiscard]

theorem C5_dedup_gap_rule_witness :
    0 < (60 : ℤ)
    ∧ (dedupScan (some 60) [61] =
        if |(61 : ℤ) - 60| < 2 then dedupScan (some 60) []
        else 61 :: dedupScan (some 61) [])
    ∧ dedupScan none [61] = 61 :: dedupScan (some 61) [] :=
  ⟨by decide, C5_dedup_gap_rule 60 61 [] (by decide)⟩

/-- C6: pitch-correction idempotence — for every integer MIDI pitch (zero
cents deviation), `adjust_pitch` returns that same pitch unchanged. -/
theorem C6_adjust_pitch_idempotent (n : ℤ) : adjust_pitch ((n : ℚ)) = n := by
  unfold adjust_pitch
  rw [pyRound_intCast]
  norm_num

/-- C9: the note loop appends every accepted candidate pitch unchanged —
the treble part receives exactly the accepted candidates ≥ 60 and the bass
part exactly those < 60, each paired with the quarter length as-is; in
particular `adjust_pitch` (octave nudge, 88-key snap) is never interposed
between candidate extraction and staff placement, `int(round(.))` being the
identity on the already-integer candidates. -/
theorem C9_pitches_pass_through_unchanged (s : Finset ℤ) (ql : ℚ) :
    processOnsetNotes s ql =
      (((dedupScan none (s.sort (· ≤ ·))).filter
          (fun m => decide (60 ≤ m))).map (fun m => (m, ql)),
       ((dedupScan none (s.sort (· ≤ ·))).filter
          (fun m => decide (m < 60))).map (fun m => (m, ql))) :=
  emitLoop_eq_filter ql _ none

/-- C10: for every duration `d` (of any sign) and beat length `b > 0`,
`quantize_duration d b / b ≥ 0.125`, so the floor
`max(0.125, quantized_duration / beat_length)` of the main loop always
equals `quantized_duration / beat_length` unchanged. -/
theorem C10_quarter_length_floor_inactive (d b : ℚ) (hb : 0 < b) :
    max (1/8) (quantize_duration d b / b) = quantize_duration d b / b :=
  max_eq_right (std_lengths_ge _ (quantize_mem d b (ne_of_gt hb)))

theorem C10_quarter_length_floor_inactive_witness :
    0 < (1 : ℚ)
    ∧ max (1/8) (quantize_duration (-5) 1 / 1) = quantize_duration (-5) 1 / 1 :=
  ⟨one_pos, C10_quarter_length_floor_inactive (-5) 1 one_pos⟩

set_option maxRecDepth 8000 in
/-- C4 (counterexample): at fractional MIDI 22.45 the deviation from the
nearest semitone is 45 cents (≥ the 40-cent tolerance), yet `adjust_pitch`
returns 23, which is not the nearest member of the full 88-key set: 22 is a
piano key (A♯0) strictly closer to 22.45. -/
theorem C4_cx_not_nearest_of_full88 :
    40 ≤ |((449 : ℚ)/20 - (pyRound ((449 : ℚ)/20) : ℤ)) * 100|
    ∧ adjust_pitch ((449 : ℚ)/20) = 23
    ∧ (22 : ℤ) ∈ full88
    ∧ |((22 : ℤ) : ℚ) - 449/20| < |((23 : ℤ) : ℚ) - 449/20| := by
  refine ⟨?_, ?_, ?_, ?_⟩
  · norm_num [pyRound, abs]
  · norm_num [adjust_pitch, pyRound, minByKey, piano_notes, List.foldl, abs]
  · decide
  · norm_num [abs]

/-- C4 (amended): for every fractional MIDI pitch whose deviation from the
nearest semitone is at least the 40-cent tolerance, `adjust_pitch` returns
the nearest member of the fixed `piano_notes` table — the white-key MIDI
numbers 21–96 plus 108 — which is a strict subset of the 88-key piano
range, not the full 88-key set. -/
theorem C4_snaps_to_piano_notes_table (midi_note : ℚ)
    (h : 40 ≤ |(midi_note - (pyRound midi_note : ℤ)) * 100|) :
    adjust_pitch midi_note ∈ piano_notes
    ∧ ∀ y ∈ piano_notes,
        |((adjust_pitch midi_note : ℤ) : ℚ) - midi_note| ≤
          |((y : ℤ) : ℚ) - midi_note| := by
  unfold adjust_pitch
  rw [if_neg (not_lt.2 h)]
  simp only [piano_notes]
  constructor
  · exact minByKey_mem _ _ _
  · intro y hy
    have := minByKey_le (fun n : ℤ => |(n : ℚ) - midi_note|) _ _ y hy
    simpa using this

theorem C4_snaps_to_piano_notes_table_witness :
    40 ≤ |((449 : ℚ)/20 - (pyRound ((449 : ℚ)/20) : ℤ)) * 100|
    ∧ (adjust_pitch ((449 : ℚ)/20) ∈ piano_notes
      ∧ ∀ y ∈ piano_notes,
          |((adjust_pitch ((449 : ℚ)/20) : ℤ) : ℚ) - 449/20| ≤
            |((y : ℤ) : ℚ) - 449/20|) :=
  ⟨by norm_num [pyRound, abs],
    C4_snaps_to_piano_notes_table (449/20) (by norm_num [pyRound, abs])⟩

/-! ### Evaluation helpers for single-bin frames, and bounds on `hzToMidi` -/

theorem maxMagnitude_single (f mag : ℚ) : maxMagnitude [(f, mag)] = mag := rfl

theorem selectPeak_single (f mag thr : ℚ) (hmag : 0 < mag) (hthr : thr < 1)
    (hf : 0 < f) : selectPeak [(f, mag)] thr = some (f, 1) := by
  have hdiv : mag / mag = 1 := div_self (ne_of_gt hmag)
  have hr : List.range 1 = [0] := rfl
  simp [selectPeak, normalizedMags, maxMagnitude, isPeakAt, hdiv, hthr, hf, hr]

theorem fsn_single (f mag thr : ℚ) (hmag : 0 < mag) (hthr : thr < 1)
    (hf : 0 < f) :
    find_simultaneous_notes [(f, mag)] thr = [(round (hzToMidi f), 1)] := by
  unfold find_simultaneous_notes
  rw [if_neg (by rw [maxMagnitude_single]; exact ne_of_gt hmag),
    selectPeak_single f mag thr hmag hthr hf]

theorem hzToMidi_440 : hzToMidi 440 = 69 := by
  unfold hzToMidi
  norm_num [Real.logb_one]

/-- 450 Hz sits strictly between MIDI 69 and MIDI 70: `45/44` is strictly
between `1` and `2^(1/12)`. -/
theorem hzToMidi_450_bounds : 69 < hzToMidi 450 ∧ hzToMidi 450 < 70 := by
  have hcast : ((450 : ℚ) : ℝ) / 440 = 45/44 := by norm_num
  unfold hzToMidi
  rw [hcast]
  constructor
  · have h := Real.logb_pos (b := 2) one_lt_two (by norm_num : (1:ℝ) < 45/44)
    linarith
  · have h : Real.logb 2 ((45:ℝ)/44) < 1/12 := by
      rw [Real.logb_lt_iff_lt_rpow one_lt_two (by norm_num : (0:ℝ) < 45/44)]
      have h2 : ((2:ℝ) ^ ((1:ℝ)/12)) ^ (12:ℕ) = 2 := by
        rw [← Real.rpow_natCast ((2:ℝ) ^ ((1:ℝ)/12)) 12,
          ← Real.rpow_mul (by norm_num : (0:ℝ) ≤ 2)]
        norm_num
      have h3 : ((45:ℝ)/44) ^ (12:ℕ) < ((2:ℝ) ^ ((1:ℝ)/12)) ^ (12:ℕ) := by
        rw [h2]; norm_num
      exact lt_of_pow_lt_pow_left₀ 12 (Real.rpow_nonneg (by norm_num) _) h3
    linarith

/-- C2 (counterexample): on the frame with a single bin at 450 Hz,
magnitude 1, the extractor retains the peak, but the produced candidate's
pitch is the rounded integer `round (hzToMidi 450)`, which differs from the
fractional MIDI value `hzToMidi 450` (strictly between 69 and 70). -/
theorem C2_cx_pitch_not_fractional :
    find_simultaneous_notes [(450, 1)] (3/200) = [(round (hzToMidi 450), 1)]
    ∧ ((round (hzToMidi 450) : ℤ) : ℝ) ≠ hzToMidi 450 := by
  constructor
  · exact fsn_single 450 1 (3/200) one_pos (by norm_num) (by norm_num)
  · intro h
    obtain ⟨h1, h2⟩ := hzToMidi_450_bounds
    rw [← h] at h1 h2
    have h1' : (69 : ℤ) < round (hzToMidi 450) := by exact_mod_cast h1
    have h2' : round (hzToMidi 450) < 70 := by exact_mod_cast h2
    omega

/-- C2 (amended): for every frame in which the extractor retains a peak,
the produced candidate's pitch is `round (69 + 12·log2(f/440))`, the
integer nearest the fractional MIDI value of the retained peak's frequency
`f` (within half a semitone of it) — not the unrounded fractional value. -/
theorem C2_pitch_is_rounded_midi (frame : List (ℚ × ℚ)) (threshold : ℚ)
    (p : ℤ) (m : ℚ)
    (h : find_simultaneous_notes frame threshold = [(p, m)]) :
    ∃ f : ℚ, selectPeak frame threshold = some (f, m)
      ∧ p = round (hzToMidi f)
      ∧ |(p : ℝ) - hzToMidi f| ≤ 1/2 := by
  unfold find_simultaneous_notes at h
  by_cases hmax : maxMagnitude frame = 0
  · rw [if_pos hmax] at h
    exact absurd h (by simp)
  · rw [if_neg hmax] at h
    cases hsel : selectPeak frame threshold with
    | none => rw [hsel] at h; exact absurd h (by simp)
    | some fm =>
      rw [hsel] at h
      have h' : round (hzToMidi fm.1) = p ∧ fm.2 = m := by simpa using h
      obtain ⟨hp, hm⟩ := h'
      refine ⟨fm.1, ?_, hp.symm, ?_⟩
      · rw [← hm]
      · rw [← hp, abs_sub_comm]
        exact abs_sub_round (hzToMidi fm.1)

theorem C2_pitch_is_rounded_midi_witness :
    find_simultaneous_notes [((440:ℚ), 1)] (3/200) = [((69:ℤ), (1:ℚ))]
    ∧ ∃ f : ℚ, selectPeak [((440:ℚ), 1)] (3/200) = some (f, 1)
      ∧ (69:ℤ) = round (hzToMidi f)
      ∧ |((69:ℤ) : ℝ) - hzToMidi f| ≤ 1/2 := by
  have h440 : find_simultaneous_notes [((440:ℚ), 1)] (3/200) =
      [((69:ℤ), (1:ℚ))] := by
    rw [fsn_single 440 1 (3/200) one_pos (by norm_num) (by norm_num),
      hzToMidi_440]
    norm_num
  exact ⟨h440, C2_pitch_is_rounded_midi _ _ _ _ h440⟩

/-- C7: for every frame and threshold, `find_simultaneous_notes` returns at
most one candidate — a list of length 0 or 1. -/
theorem C7_at_most_one_candidate (frame : List (ℚ × ℚ)) (threshold : ℚ) :
    (find_simultaneous_notes frame threshold).length ≤ 1 := by
  unfold find_simultaneous_notes
  by_cases hmax : maxMagnitude frame = 0
  · simp [hmax]
  · rw [if_neg hmax]
    cases selectPeak frame threshold <;> simp

/-- C8: for every frame whose maximum salience is zero, no candidate is
emitted and the (total) function returns normally with the empty list — the
condition is handled locally, not raised. -/
theorem C8_zero_salience_no_candidate (frame : List (ℚ × ℚ))
    (threshold : ℚ) (h : maxMagnitude frame = 0) :
    find_simultaneous_notes frame threshold = [] := by
  unfold find_simultaneous_notes
  rw [if_pos h]

theorem C8_zero_salience_no_candidate_witness :
    maxMagnitude [((100:ℚ), (0:ℚ))] = 0
    ∧ find_simultaneous_notes [((100:ℚ), (0:ℚ))] (3/200) = [] :=
  ⟨rfl, C8_zero_salience_no_candidate _ _ rfl⟩

end Pizzazz
